import Mathlib

/-!
Verification of the SOP Creator tool (src/pages/SOP_Creator.py).

Python strings are embedded as `List Char`.  The substitution engine,
the docx walking code, the date validation of `generate_doc`, the
missing-field check, the suggestion post-processing and the accept
handler are translated from the source file; `python-docx` documents are
modelled as paragraphs (lists of styled runs) plus tables (rows of cells
of paragraphs), which is the shape the code traverses.
-/

set_option maxRecDepth 10000

/-- Convert a Lean string literal to the `List Char` representation used
throughout this development. -/
def cs (x : String) : List Char := x.toList

/-- The whitespace characters stripped by Python's `str.strip()` (ASCII
subset: space, tab, newline, carriage return, vertical tab, form feed). -/
def spaceB (c : Char) : Bool :=
  c == ' ' || c == '\t' || c == '\n' || c == '\r' || c == '\x0b' || c == '\x0c'

/-- Python `str.strip()`: drop leading and trailing whitespace. -/
def pyStrip (t : List Char) : List Char :=
  ((t.dropWhile spaceB).reverse.dropWhile spaceB).reverse

/-- `hasOccur old t` is true when `old` occurs as a contiguous substring
of `t` (Python's `old in t`). -/
def hasOccur (old : List Char) : List Char → Bool
  | [] => old.isEmpty
  | c :: rest => old.isPrefixOf (c :: rest) || hasOccur old rest

/-- Worker for `replaceAll`.  The `Nat` argument counts characters still
to be skipped because they belonged to a just-replaced occurrence; the
recursion is structural in the text so that concrete instances reduce in
the kernel. -/
def replaceAllAux (old new : List Char) : List Char → Nat → List Char
  | [], _ => []
  | _ :: rest, Nat.succ k => replaceAllAux old new rest k
  | c :: rest, 0 =>
    if !old.isEmpty && old.isPrefixOf (c :: rest) then
      new ++ replaceAllAux old new rest (old.length - 1)
    else
      c :: replaceAllAux old new rest 0

/-- Python `t.replace(old, new)`: replace the non-overlapping occurrences
of `old` in `t` from left to right, without rescanning `new`.  (For the
degenerate `old = []`, which the program never produces, this is the
identity.) -/
def replaceAll (old new t : List Char) : List Char :=
  replaceAllAux old new t 0

/-- The `f"{{{{{key}}}}}"` token of `replace_placeholders`: two braces,
the key, two braces. -/
def placeholder (key : List Char) : List Char :=
  cs "\x7b\x7b" ++ key ++ cs "\x7d\x7d"

/-- One iteration of the loop body of `replace_placeholders`: replace the
key's placeholder with the raw value when the value strips to non-empty,
and with the empty string otherwise. -/
def replaceField (text : List Char) (kv : List Char × List Char) : List Char :=
  if pyStrip kv.2 ≠ [] then replaceAll (placeholder kv.1) kv.2 text
  else replaceAll (placeholder kv.1) [] text

/-- `replace_placeholders(text, field_values)` from the source: fold the
per-key replacement over the field mapping in its (insertion) order. -/
def replace_placeholders (text : List Char) (field_values : List (List Char × List Char)) : List Char :=
  field_values.foldl replaceField text

example : replaceAll (cs "ab") (cs "X") (cs "zabab") = cs "zXX" := by decide

example :
    replace_placeholders (cs "a \x7b\x7bTITLE\x7d\x7d b")
      [(cs "TITLE", cs "T")] = cs "a T b" := by decide

example :
    replace_placeholders (cs "a \x7b\x7bTITLE\x7d\x7d b")
      [(cs "TITLE", cs "  ")] = cs "a  b" := by decide

/-- A styled text run of a docx paragraph: its text and its font size in
points (`none` when the run has no explicit size). -/
structure Run where
  text : List Char
  size : Option Nat
deriving DecidableEq, Repr

/-- A docx paragraph: an ordered list of styled runs. -/
structure Para where
  runs : List Run
deriving DecidableEq, Repr

/-- A table cell: the paragraphs directly inside it (the code visits one
level of tables, matching the template contract in the spec). -/
abbrev Cell := List Para

/-- A table row: its cells. -/
abbrev Row := List Cell

/-- A table: its rows. -/
abbrev Table := List Row

/-- A loaded docx document as traversed by the code: the body paragraphs
and the body tables. -/
structure DocX where
  paragraphs : List Para
  tables : List Table
deriving DecidableEq, Repr

/-- `paragraph.text` of python-docx: the concatenation of the texts of
the paragraph's runs. -/
def paraText (p : Para) : List Char := (p.runs.map Run.text).flatten

/-- The `paragraph.text = s` setter of python-docx: the paragraph's runs
collapse to a single run holding `s` (with no explicit font size). -/
def setText (t : List Char) : Para := ⟨[⟨t, none⟩]⟩

/-- The guard `any(f"{{{{{key}}}}}" in paragraph.text for key in field_values)`
of `process_document`. -/
def containsAnyPh (fv : List (List Char × List Char)) (t : List Char) : Bool :=
  fv.any (fun kv => hasOccur (placeholder kv.1) t)

/-- Top-level paragraph handling in `process_document`: rewrite the text
only when some placeholder of the field mapping occurs in it. -/
def procPara (fv : List (List Char × List Char)) (p : Para) : Para :=
  if containsAnyPh fv (paraText p) then setText (replace_placeholders (paraText p) fv)
  else p

/-- `process_document(doc, field_values)`: substitute in every top-level
paragraph (guarded) and, unconditionally, in every paragraph of every
cell of every table. -/
def process_document (doc : DocX) (fv : List (List Char × List Char)) : DocX :=
  { paragraphs := doc.paragraphs.map (procPara fv)
    tables := doc.tables.map (fun tb => tb.map (fun row => row.map (fun cell =>
      cell.map (fun p => setText (replace_placeholders (paraText p) fv))))) }

/-- `adjust_font(doc, size)`: force the font size of every run, top-level
and inside tables, to the given size (`Pt(8)` at the call site). -/
def adjust_font (doc : DocX) (sz : Nat) : DocX :=
  { paragraphs := doc.paragraphs.map (fun p => ⟨p.runs.map (fun r => ⟨r.text, some sz⟩)⟩)
    tables := doc.tables.map (fun tb => tb.map (fun row => row.map (fun cell =>
      cell.map (fun p => ⟨p.runs.map (fun r => ⟨r.text, some sz⟩)⟩)))) }

/-- `doc.save(buf)` followed by `buf.read()`: the byte buffer of the
serialized document, modelled as a marker header followed by the
document's text content.  It is never empty. -/
def serializeDoc (doc : DocX) : List Char :=
  cs "DOCX" ++ (doc.paragraphs.map paraText).flatten ++
    (doc.tables.map (fun tb => (tb.map (fun row => (row.map (fun cell =>
      (cell.map paraText).flatten)).flatten)).flatten)).flatten

/-- Rewrite a character through a translation table (first hit wins). -/
def lowerViaTable : List (Char × Char) → Char → Char
  | [], c => c
  | p :: rest, c => if c == p.1 then p.2 else lowerViaTable rest c

/-- The upper-to-lower translation table of the ASCII letters. -/
def ulTable : List (Char × Char) :=
  [('A', 'a'), ('B', 'b'), ('C', 'c'), ('D', 'd'), ('E', 'e'), ('F', 'f'),
   ('G', 'g'), ('H', 'h'), ('I', 'i'), ('J', 'j'), ('K', 'k'), ('L', 'l'),
   ('M', 'm'), ('N', 'n'), ('O', 'o'), ('P', 'p'), ('Q', 'q'), ('R', 'r'),
   ('S', 's'), ('T', 't'), ('U', 'u'), ('V', 'v'), ('W', 'w'), ('X', 'x'),
   ('Y', 'y'), ('Z', 'z')]

/-- ASCII lowercasing of one character, as used by `strptime`'s
case-insensitive month matching. -/
def asciiLower (c : Char) : Char := lowerViaTable ulTable c

/-- Decimal digit test (the `\d` of `strptime`'s patterns). -/
def digitB (c : Char) : Bool := c.isDigit

/-- Numeric value of a digit string. -/
def natOfDigits (ds : List Char) : Nat :=
  ds.foldl (fun acc c => 10 * acc + (c.toNat - 48)) 0

/-- The `%d` directive of `strptime`: one or two leading digits with
value 1..31, the rest of the input following.  (Three or more leading
digits can never parse, since the next directive requires whitespace.) -/
def parseDay (t : List Char) : Option (Nat × List Char) :=
  let ds := t.takeWhile digitB
  if ds.length = 1 ∨ ds.length = 2 then
    if 1 ≤ natOfDigits ds ∧ natOfDigits ds ≤ 31 then
      some (natOfDigits ds, t.dropWhile digitB)
    else none
  else none

/-- A literal whitespace in a `strptime` format: `\s+`, one or more
whitespace characters. -/
def parseWs (t : List Char) : Option (List Char) :=
  if (t.takeWhile spaceB).isEmpty then none else some (t.dropWhile spaceB)

/-- The full English month names that `%B` recognises, lowercased.  No
name is a prefix of another, so the match order is immaterial. -/
def monthNames : List (List Char) :=
  [cs "january", cs "february", cs "march", cs "april", cs "may", cs "june",
   cs "july", cs "august", cs "september", cs "october", cs "november",
   cs "december"]

/-- Try the month names in turn against the lowercased input; on a hit
return the month number and the input after the name. -/
def matchMonthAux : List (List Char) → Nat → List Char → Option (Nat × List Char)
  | [], _, _ => none
  | n :: ns, i, t =>
    if n.isPrefixOf (t.map asciiLower) then some (i, t.drop n.length)
    else matchMonthAux ns (i + 1) t

/-- The `%B` directive of `strptime`: a case-insensitive full English
month name. -/
def matchMonth (t : List Char) : Option (Nat × List Char) :=
  matchMonthAux monthNames 1 t

/-- The `%Y` directive at the end of the format: exactly four digits and
then the end of the input (`strptime` rejects unconverted trailing
data). -/
def parseYear (t : List Char) : Option Nat :=
  if t.length = 4 ∧ t.all digitB then some (natOfDigits t) else none

/-- Gregorian leap-year rule used by `datetime`. -/
def leapYear (y : Nat) : Bool :=
  (y % 4 == 0 && !(y % 100 == 0)) || y % 400 == 0

/-- Length of a month, as enforced by the `datetime.datetime`
constructor. -/
def daysInMonth (y m : Nat) : Nat :=
  match m with
  | 1 => 31 | 2 => if leapYear y then 29 else 28 | 3 => 31 | 4 => 30
  | 5 => 31 | 6 => 30 | 7 => 31 | 8 => 31 | 9 => 30 | 10 => 31
  | 11 => 30 | 12 => 31 | _ => 0

/-- `datetime.datetime.strptime(text, "%d %B %Y")` succeeds: day, then
whitespace, then a month name (case-insensitive), then whitespace, then
a four-digit year consuming the rest; finally the constructed date must
be a real calendar date with year at least `MINYEAR = 1`. -/
def validDate (t : List Char) : Bool :=
  match parseDay t with
  | none => false
  | some (d, r1) =>
    match parseWs r1 with
    | none => false
    | some r2 =>
      match matchMonth r2 with
      | none => false
      | some (m, r3) =>
        match parseWs r3 with
        | none => false
        | some r4 =>
          match parseYear r4 with
          | none => false
          | some y => decide (1 ≤ y) && decide (d ≤ daysInMonth y m)

example : validDate (cs "02 MARCH 2025") = true := by decide
example : validDate (cs "2025-03-02") = false := by decide
example : validDate (cs "32 MARCH 2025") = false := by decide
example : validDate (cs "02 MARCH") = false := by decide
example : validDate (cs "02 march 2025") = true := by decide
example : validDate (cs "29 FEBRUARY 2025") = false := by decide
example : validDate (cs "29 FEBRUARY 2024") = true := by decide

/-- The per-session form state of the page: the seven form fields, the
stored AI suggestion with its expansion flag, and the generated document
state (`doc_bytes`, `doc_filename`), absent until a successful render. -/
structure Session where
  title : List Char
  code : List Char
  checklist_no : List Char
  revision : List Char
  date : List Char
  position : List Char
  actions_text : List Char
  sop_suggestion : List Char
  expanded : Bool
  doc_bytes : Option (List Char)
  doc_filename : List Char
deriving DecidableEq, Repr

/-- The field mapping built by `generate_doc`, in its insertion order. -/
def fieldValues (st : Session) : List (List Char × List Char) :=
  [(cs "TITLE", st.title), (cs "CODE", st.code),
   (cs "CHECKLIST.NO", st.checklist_no), (cs "REV", st.revision),
   (cs "DATE", st.date), (cs "POSITION", st.position),
   (cs "ACTIONS", st.actions_text)]

/-- The keys of the field mapping. -/
def fieldKeys : List (List Char) :=
  [cs "TITLE", cs "CODE", cs "CHECKLIST.NO", cs "REV", cs "DATE",
   cs "POSITION", cs "ACTIONS"]

/-- The required fields of `generate_doc`, as session-state keys paired
with their values, in the order of the `required` list. -/
def requiredPairs (st : Session) : List (List Char × List Char) :=
  [(cs "title", st.title), (cs "checklist_no", st.checklist_no),
   (cs "date", st.date), (cs "actions_text", st.actions_text)]

/-- `missing = [field for field in required if st.session_state[field].strip() == ""]`. -/
def missingFields (st : Session) : List (List Char) :=
  ((requiredPairs st).filter (fun kv => pyStrip kv.2 = [])).map Prod.fst

/-- The outcome of one run of `generate_doc`: missing-field error, date
format error, render-time exception, or success. -/
inductive GenOutcome where
  | ok
  | errMissing (names : List (List Char))
  | errDate
  | errRender (msg : List Char)
deriving DecidableEq, Repr

/-- The `st.error` message shown for each failing outcome. -/
def messageOf : GenOutcome → Option (List Char)
  | .ok => none
  | .errMissing names => some (cs "Please fill in required fields: " ++
      (List.intercalate (cs ", ") names))
  | .errDate => some (cs "Please enter the date in DD MONTH YYYY format (e.g., 02 MARCH 2025)")
  | .errRender e => some (cs "Error generating document: " ++ e)

/-- `generate_doc()`: check the required fields, then the date format,
then load the template (`tmpl` is the outcome of reading and parsing the
template file; `Except.error` is an exception inside the final `try`
block), substitute, adjust fonts, serialize, and store the bytes and the
filename in the session.  Every failing path leaves the session
unchanged. -/
def generate_doc (st : Session) (tmpl : Except (List Char) DocX) : Session × GenOutcome :=
  if missingFields st ≠ [] then (st, .errMissing (missingFields st))
  else if validDate st.date then
    match tmpl with
    | .error e => (st, .errRender e)
    | .ok doc =>
      let doc2 := adjust_font (process_document doc (fieldValues st)) 8
      ({ st with
          doc_bytes := some (serializeDoc doc2)
          doc_filename := st.checklist_no ++ cs " - " ++ st.title ++ cs ".docx" },
        .ok)
  else (st, .errDate)

/-- The download offer after the `Generate SOP` button ran
`generate_doc`: the stored bytes, provided `doc_bytes` is present in the
session and truthy (non-empty). -/
def offeredBytes (st : Session) : Option (List Char) :=
  match st.doc_bytes with
  | some bs => if bs = [] then none else some bs
  | none => none

/-- The `Accept` button handler: overwrite `actions_text` with the
stored suggestion and collapse the expander. -/
def acceptSuggestion (st : Session) : Session :=
  { st with actions_text := st.sop_suggestion, expanded := false }

/-- Split a text at the first occurrence of `old`: the part before the
occurrence and the part after it. -/
def splitFirst (old : List Char) : List Char → Option (List Char × List Char)
  | [] => none
  | c :: rest =>
    if !old.isEmpty && old.isPrefixOf (c :: rest) then
      some ([], (c :: rest).drop old.length)
    else
      match splitFirst old rest with
      | none => none
      | some (pre, post) => some (c :: pre, post)

/-- Worker for `stripThink`, with fuel for structural recursion; each
step removes at least one character, so `t.length` fuel suffices. -/
def stripThinkAux : Nat → List Char → List Char
  | 0, t => t
  | Nat.succ fuel, t =>
    match splitFirst (cs "<think>") t with
    | none => t
    | some (pre, post) =>
      match splitFirst (cs "</think>") post with
      | none => t
      | some (⟨_, post2⟩) => pre ++ stripThinkAux fuel post2

/-- `re.sub(r"<think>.*?</think>", "", sop_text, flags=re.DOTALL)`:
remove every block from a `<think>` to the nearest following
`</think>`, the match spanning newlines, continuing after the removed
block; an unmatched `<think>` (one with no `</think>` anywhere after
it) matches nothing and the remaining text is kept as is. -/
def stripThink (t : List Char) : List Char := stripThinkAux t.length t

/-- The post-processing of `generate_sop`: strip the think blocks, then
`.strip()` the result. -/
def sopPostprocess (t : List Char) : List Char := pyStrip (stripThink t)

example :
    sopPostprocess (cs "Step 1: do X<think>internal reasoning</think>Step 2: do Y")
      = cs "Step 1: do XStep 2: do Y" := by decide

example : sopPostprocess (cs "  a<think>x</think>b<think>y\nz</think>c  ") = cs "abc" := by decide

example : sopPostprocess (cs "a<think>open") = cs "a<think>open" := by decide

theorem isPrefixOf_iff_exists (l₁ l₂ : List Char) :
    l₁.isPrefixOf l₂ = true ↔ ∃ r, l₂ = l₁ ++ r := by
  induction l₁ generalizing l₂ with
  | nil => simp [List.isPrefixOf]
  | cons a as ih =>
    cases l₂ with
    | nil => simp [List.isPrefixOf]
    | cons b bs =>
      simp only [List.isPrefixOf, Bool.and_eq_true, beq_iff_eq, ih, List.cons_append]
      constructor
      · rintro ⟨rfl, r, rfl⟩
        exact ⟨r, rfl⟩
      · rintro ⟨r, h⟩
        injection h with h1 h2
        exact ⟨h1.symm, r, h2⟩

theorem hasOccur_head (old t r : List Char) (hne : old ≠ []) (h : t = old ++ r) :
    hasOccur old t = true := by
  cases old with
  | nil => exact absurd rfl hne
  | cons o os =>
    subst h
    show hasOccur (o :: os) (o :: (os ++ r)) = true
    rw [hasOccur]
    have : (o :: os).isPrefixOf (o :: (os ++ r)) = true :=
      (isPrefixOf_iff_exists _ _).mpr ⟨r, rfl⟩
    rw [this, Bool.true_or]

theorem replaceAllAux_skip (old new : List Char) : ∀ (t : List Char) (k : Nat),
    replaceAllAux old new t k = replaceAllAux old new (t.drop k) 0
  | [], 0 => rfl
  | [], _ + 1 => rfl
  | _ :: _, 0 => rfl
  | _ :: rest, k + 1 => replaceAllAux_skip old new rest k

theorem replaceAll_cons (old new : List Char) (c : Char) (rest : List Char) :
    replaceAll old new (c :: rest) =
      if !old.isEmpty && old.isPrefixOf (c :: rest) then
        new ++ replaceAll old new ((c :: rest).drop old.length)
      else c :: replaceAll old new rest := by
  simp only [replaceAll, replaceAllAux]
  split
  · rename_i h
    rw [replaceAllAux_skip]
    cases old with
    | nil => simp at h
    | cons o os => simp
  · rfl

theorem replaceAll_no_occ (old new : List Char) : ∀ (t : List Char),
    hasOccur old t = false → replaceAll old new t = t := by
  intro t
  induction t with
  | nil => intro _; rfl
  | cons c rest ih =>
    intro h
    rw [hasOccur, Bool.or_eq_false_iff] at h
    rw [replaceAll_cons, h.1]
    simp [ih h.2]

theorem replaceAll_self (old : List Char) (t : List Char) : replaceAll old old t = t := by
  generalize hn : t.length = n
  induction n using Nat.strong_induction_on generalizing t with
  | _ n ih =>
    cases t with
    | nil => rfl
    | cons c rest =>
      have hrest : rest.length < n := by simp at hn; omega
      rw [replaceAll_cons]
      cases old with
      | nil => simp [ih rest.length hrest rest rfl]
      | cons o os =>
        by_cases hp : (o :: os).isPrefixOf (c :: rest) = true
        · obtain ⟨r, hr⟩ := (isPrefixOf_iff_exists _ _).mp hp
          have hlen : r.length < n := by
            have h2 := congrArg List.length hr
            simp [List.length_append] at h2 hn
            omega
          simp only [hp]
          simp only [List.isEmpty_cons, Bool.not_false, Bool.and_true, if_true]
          rw [hr, List.drop_left, ih r.length hlen r rfl]
        · rw [Bool.not_eq_true] at hp
          simp [hp, ih rest.length hrest rest rfl]

theorem replace_placeholders_no_occ (fv : List (List Char × List Char)) :
    ∀ (t : List Char), (∀ kv ∈ fv, hasOccur (placeholder kv.1) t = false) →
      replace_placeholders t fv = t := by
  induction fv with
  | nil => intro t _; rfl
  | cons kv rest ih =>
    intro t h
    have h1 : replaceField t kv = t := by
      unfold replaceField
      split <;> exact replaceAll_no_occ _ _ t (h kv (by simp))
    show List.foldl replaceField (replaceField t kv) rest = t
    rw [h1]
    exact ih t (fun kv' hkv' => h kv' (List.mem_cons_of_mem _ hkv'))

/-- `old` has no proper non-empty border: no strict prefix of it is also
a suffix.  The placeholder tokens all satisfy this, which rules out
occurrences of a token overlapping each other or an explicit copy. -/
def noBorderB (old : List Char) : Bool :=
  (List.range old.length).all
    (fun i => i == 0 || !(old.take i == old.drop (old.length - i)))

theorem not_pref_of_clean (old a b : List Char) (hne : old ≠ [])
    (hnb : noBorderB old = true) (ha : hasOccur old a = false) (hA : a ≠ []) :
    old.isPrefixOf (a ++ old ++ b) = false := by
  by_contra hcon
  rw [Bool.not_eq_false, isPrefixOf_iff_exists] at hcon
  obtain ⟨r, hr⟩ := hcon
  rw [List.append_assoc] at hr
  rcases List.append_eq_append_iff.mp hr with ⟨w, hw1, hw2⟩ | ⟨w, hw1, _⟩
  · rcases List.eq_nil_or_concat w with rfl | _
    · rw [List.append_nil] at hw1
      exact absurd (hasOccur_head old a [] hne (by rw [← hw1, List.append_nil])) (by simp [ha])
    · have hwne : w ≠ [] := by rintro rfl; simp_all
      rcases List.append_eq_append_iff.mp hw2 with ⟨x, hx1, _⟩ | ⟨y, hy1, _⟩
      · have l1 := congrArg List.length hw1
        have l2 := congrArg List.length hx1
        simp [List.length_append] at l1 l2
        have : a.length = 0 := by omega
        exact absurd (List.eq_nil_of_length_eq_zero this) hA
      · have hilt : w.length < old.length := by
          have l1 := congrArg List.length hw1
          simp [List.length_append] at l1
          have : a.length ≠ 0 := fun h0 => hA (List.eq_nil_of_length_eq_zero h0)
          omega
        have htake : old.take w.length = w := by
          rw [hy1]
          exact List.take_left w y
        have hdrop : old.drop (old.length - w.length) = w := by
          have l1 := congrArg List.length hw1
          simp [List.length_append] at l1
          have : old.length - w.length = a.length := by omega
          rw [this, hw1]
          exact List.drop_left a w
        have hall := List.all_eq_true.mp hnb w.length (List.mem_range.mpr hilt)
        rcases Bool.or_eq_true_iff.mp hall with h0 | hne2
        · have : w.length = 0 := by simpa using h0
          exact hwne (List.eq_nil_of_length_eq_zero this)
        · rw [htake, hdrop] at hne2
          simp at hne2
  · exact absurd (hasOccur_head old a w hne hw1) (by simp [ha])

theorem replaceAll_append (old new : List Char) (hne : old ≠ [])
    (hnb : noBorderB old = true) :
    ∀ (a b : List Char), hasOccur old a = false →
      replaceAll old new (a ++ old ++ b) = a ++ new ++ replaceAll old new b := by
  intro a
  induction a with
  | nil =>
    intro b _
    simp only [List.nil_append]
    cases old with
    | nil => exact absurd rfl hne
    | cons o os =>
      rw [show ((o :: os) ++ b) = o :: (os ++ b) from rfl, replaceAll_cons]
      have hp : (o :: os).isPrefixOf (o :: (os ++ b)) = true :=
        (isPrefixOf_iff_exists _ _).mpr ⟨b, rfl⟩
      simp only [hp, List.isEmpty_cons, Bool.not_false, Bool.and_true, if_true]
      rw [show (o :: (os ++ b)) = (o :: os) ++ b from rfl, List.drop_left]
  | cons c a' ih =>
    intro b ha
    rw [hasOccur, Bool.or_eq_false_iff] at ha
    rw [show ((c :: a') ++ old ++ b) = c :: (a' ++ old ++ b) by simp, replaceAll_cons]
    have hpf : old.isPrefixOf (c :: (a' ++ old ++ b)) = false := by
      have h := not_pref_of_clean old (c :: a') b hne hnb
        (by rw [hasOccur, Bool.or_eq_false_iff]; exact ha) (by simp)
      simpa using h
    rw [hpf]
    simp only [Bool.and_false, Bool.false_eq_true, if_false]
    rw [ih b ha.2]
    simp

theorem placeholder_ne_nil (k : List Char) : placeholder k ≠ [] := by
  simp [placeholder, cs]

theorem pyStrip_placeholder_ne (k : List Char) : pyStrip (placeholder k) ≠ [] := by
  intro h
  have hd : List.dropWhile spaceB (placeholder k) = placeholder k := by
    have hph : placeholder k = '\x7b' :: ('\x7b' :: (k ++ ['\x7d', '\x7d'])) := by
      simp [placeholder, cs]
    rw [hph, List.dropWhile_cons]
    rw [if_neg (by decide)]
  rw [pyStrip, hd, List.reverse_eq_nil_iff, List.dropWhile_eq_nil_iff] at h
  have hmem : '\x7b' ∈ (placeholder k).reverse := by
    rw [List.mem_reverse]
    simp [placeholder, cs]
  exact absurd (h _ hmem) (by decide)

theorem fieldKeys_noBorder : ∀ k ∈ fieldKeys, noBorderB (placeholder k) = true := by
  decide

/-- The session of the C2 counterexample: `TITLE` is bound to the
literal text of the `CODE` placeholder and `CODE` to `"X"`. -/
def sessC2 : Session :=
  { title := cs "\x7b\x7bCODE\x7d\x7d", code := cs "X", checklist_no := cs "",
    revision := cs "", date := cs "", position := cs "", actions_text := cs "",
    sop_suggestion := cs "", expanded := true, doc_bytes := none,
    doc_filename := cs "" }

/-- Session with `CODE` bound to the literal text of the `TITLE`
placeholder (processed after `TITLE`). -/
def sessC2' : Session :=
  { title := cs "T", code := cs "\x7b\x7bTITLE\x7d\x7d", checklist_no := cs "",
    revision := cs "", date := cs "", position := cs "", actions_text := cs "",
    sop_suggestion := cs "", expanded := true, doc_bytes := none,
    doc_filename := cs "" }

/-- Claim C2, counterexample: with the value bound to TITLE being the
literal string of the CODE placeholder, the output of
`replace_placeholders` on the TITLE placeholder is the value bound to
CODE, not the literal CODE placeholder — the text introduced for TITLE
was scanned again when the loop reached CODE. -/
theorem spec_c2_counterexample :
    replace_placeholders (cs "\x7b\x7bTITLE\x7d\x7d") (fieldValues sessC2) = cs "X" ∧
      replace_placeholders (cs "\x7b\x7bTITLE\x7d\x7d") (fieldValues sessC2)
        ≠ cs "\x7b\x7bCODE\x7d\x7d" :=
  ⟨by decide, by decide⟩

/-- Claim C2 amended: replacement text is never re-scanned for the key
being replaced (a value equal to the key's own placeholder survives
literally, for every input text), and text introduced for an earlier
key IS scanned for placeholders of keys later in the FieldSet's
iteration order — TITLE's value of the CODE token becomes CODE's value
— while a later key's value naming an earlier key's token stays
literal. -/
theorem spec_c2_amended :
    (∀ (k t : List Char), replace_placeholders t [(k, placeholder k)] = t) ∧
      replace_placeholders (cs "\x7b\x7bTITLE\x7d\x7d") (fieldValues sessC2) = cs "X" ∧
      replace_placeholders (cs "\x7b\x7bCODE\x7d\x7d") (fieldValues sessC2')
        = cs "\x7b\x7bTITLE\x7d\x7d" := by
  refine ⟨?_, by decide, by decide⟩
  intro k t
  show (if pyStrip (placeholder k) ≠ [] then replaceAll (placeholder k) (placeholder k) t
      else replaceAll (placeholder k) [] t) = t
  rw [if_pos (pyStrip_placeholder_ne k)]
  exact replaceAll_self _ _

/-- Claim C4: for a key of the FieldSet, the per-key pass of
`replace_placeholders` rewrites the text occurrence by occurrence from
the left: ahead of an occurrence of the token the text is kept, the
occurrence itself becomes the raw (untrimmed) value when the value
strips to non-empty and the empty string otherwise, and the pass
continues identically on the rest; matching is exact, so the
differently-cased token of TITLE is never touched. -/
theorem spec_c4 (k v a b : List Char) (hk : k ∈ fieldKeys)
    (ha : hasOccur (placeholder k) a = false) :
    replaceField (a ++ placeholder k ++ b) (k, v)
        = a ++ (if pyStrip v = [] then [] else v) ++ replaceField b (k, v) ∧
      replaceField (cs "\x7b\x7btitle\x7d\x7d") (cs "TITLE", v)
        = cs "\x7b\x7btitle\x7d\x7d" := by
  have hne : placeholder k ≠ [] := placeholder_ne_nil k
  have hnb : noBorderB (placeholder k) = true := fieldKeys_noBorder k hk
  constructor
  · unfold replaceField
    by_cases hv : pyStrip v = []
    · simp only [hv, ne_eq, not_true_eq_false, if_false, if_true]
      simpa using replaceAll_append (placeholder k) [] hne hnb a b ha
    · simp only [hv, ne_eq, not_false_eq_true, if_true, if_false]
      simpa using replaceAll_append (placeholder k) v hne hnb a b ha
  · unfold replaceField
    have hno : hasOccur (placeholder (cs "TITLE")) (cs "\x7b\x7btitle\x7d\x7d") = false := by
      decide
    split <;> exact replaceAll_no_occ _ _ _ hno

theorem spec_c4_witness :
    replaceField (cs "x" ++ placeholder (cs "TITLE") ++ cs "y") (cs "TITLE", cs " R ")
        = cs "x" ++ (if pyStrip (cs " R ") = [] then [] else cs " R ")
          ++ replaceField (cs "y") (cs "TITLE", cs " R ") :=
  (spec_c4 (cs "TITLE") (cs " R ") (cs "x") (cs "y") (by decide) (by decide)).1

/-- Claim C5: a text in which no key of the FieldSet has an occurrence
of its placeholder is returned unchanged by `replace_placeholders`, and
consequently substitution is idempotent on outputs free of remaining
placeholders. -/
theorem spec_c5 :
    (∀ (fv : List (List Char × List Char)) (t : List Char),
        (∀ kv ∈ fv, hasOccur (placeholder kv.1) t = false) →
          replace_placeholders t fv = t) ∧
      (∀ (fv : List (List Char × List Char)) (t : List Char),
        (∀ kv ∈ fv, hasOccur (placeholder kv.1) (replace_placeholders t fv) = false) →
          replace_placeholders (replace_placeholders t fv) fv
            = replace_placeholders t fv) :=
  ⟨fun fv t h => replace_placeholders_no_occ fv t h,
   fun fv t h => replace_placeholders_no_occ fv (replace_placeholders t fv) h⟩

theorem spec_c5_witness :
    replace_placeholders (cs "no tokens here") [(cs "TITLE", cs "T")]
      = cs "no tokens here" :=
  spec_c5.1 [(cs "TITLE", cs "T")] (cs "no tokens here") (by decide)

theorem paraText_setText (t : List Char) : paraText (setText t) = t := by
  simp [paraText, setText]

theorem paraText_procPara (fv : List (List Char × List Char)) (p : Para) :
    paraText (procPara fv p) = replace_placeholders (paraText p) fv := by
  unfold procPara
  split
  · exact paraText_setText _
  · rename_i h
    rw [Bool.not_eq_true] at h
    unfold containsAnyPh at h
    rw [List.any_eq_false] at h
    exact (replace_placeholders_no_occ fv (paraText p)
      (fun kv hkv => by simpa using h kv hkv)).symm

/-- Claim C3: after `process_document` the text of every paragraph,
top-level or inside any cell of any (one-level) table, is exactly
`replace_placeholders` of the concatenation of its original run texts —
so a placeholder split across runs is still replaced, as the concrete
split-run instance shows. -/
theorem spec_c3 :
    (∀ (doc : DocX) (fv : List (List Char × List Char)),
        (process_document doc fv).paragraphs.map paraText
            = doc.paragraphs.map (fun p => replace_placeholders (paraText p) fv) ∧
          (process_document doc fv).tables.map (fun tb => tb.map (fun row =>
              row.map (fun cell => cell.map paraText)))
            = doc.tables.map (fun tb => tb.map (fun row => row.map (fun cell =>
              cell.map (fun p => replace_placeholders (paraText p) fv))))) ∧
      (process_document
            ⟨[⟨[⟨cs "\x7b\x7bTIT", none⟩, ⟨cs "LE\x7d\x7d", some 12⟩]⟩], []⟩
            [(cs "TITLE", cs "Radio Check")]).paragraphs.map paraText
        = [cs "Radio Check"] := by
  refine ⟨fun doc fv => ⟨?_, ?_⟩, by decide⟩
  · simp [process_document, List.map_map, Function.comp, paraText_procPara]
  · simp [process_document, List.map_map, Function.comp, paraText_setText]

/-- The base session used for the date-validation scenarios: the
required fields are filled, the date is the parameter. -/
def sessC6 (d : List Char) : Session :=
  { title := cs "Radio Check", code := cs "", checklist_no := cs "100.001",
    revision := cs "", date := d, position := cs "",
    actions_text := cs "Turn on radio.", sop_suggestion := cs "",
    expanded := true, doc_bytes := none, doc_filename := cs "" }

/-- A small template: one paragraph with the DATE token and one table
cell with the TITLE token. -/
def tmplC6 : DocX :=
  ⟨[⟨[⟨cs "Date: \x7b\x7bDATE\x7d\x7d", none⟩]⟩],
   [[[[⟨[⟨cs "\x7b\x7bTITLE\x7d\x7d", none⟩]⟩]]]]⟩

/-- Claim C6: with the required fields filled, `generate_doc` accepts
the date `02 MARCH 2025` and proceeds to render, while each of
`2025-03-02`, `32 MARCH 2025` and `02 MARCH` yields the date error —
whose message names the expected DD MONTH YYYY format — with the
session unchanged and no rendering attempted, whatever the template. -/
theorem spec_c6 :
    (generate_doc (sessC6 (cs "02 MARCH 2025")) (Except.ok tmplC6)).2
        = GenOutcome.ok ∧
      (∀ tmpl, generate_doc (sessC6 (cs "2025-03-02")) tmpl
          = (sessC6 (cs "2025-03-02"), GenOutcome.errDate)) ∧
      (∀ tmpl, generate_doc (sessC6 (cs "32 MARCH 2025")) tmpl
          = (sessC6 (cs "32 MARCH 2025"), GenOutcome.errDate)) ∧
      (∀ tmpl, generate_doc (sessC6 (cs "02 MARCH")) tmpl
          = (sessC6 (cs "02 MARCH"), GenOutcome.errDate)) ∧
      messageOf GenOutcome.errDate
        = some (cs "Please enter the date in DD MONTH YYYY format (e.g., 02 MARCH 2025)") :=
  ⟨by decide, fun _ => rfl, fun _ => rfl, fun _ => rfl, rfl⟩

/-- Claim C7: when some required field strips to empty, `generate_doc`
reports exactly the empty required fields, by session-state key, and
leaves the session untouched (no rendering); with only `checklist_no`
empty the reported list is exactly `checklist_no`. -/
theorem spec_c7 (st : Session) (tmpl : Except (List Char) DocX) :
    (missingFields st ≠ [] →
        generate_doc st tmpl = (st, GenOutcome.errMissing (missingFields st))) ∧
      (pyStrip st.checklist_no = [] → pyStrip st.title ≠ [] →
        pyStrip st.date ≠ [] → pyStrip st.actions_text ≠ [] →
          missingFields st = [cs "checklist_no"]) := by
  constructor
  · intro h
    unfold generate_doc
    rw [if_pos h]
  · intro h1 h2 h3 h4
    unfold missingFields requiredPairs
    simp [List.filter_cons, h1, h2, h3, h4]

/-- Session with only `checklist_no` empty among the required fields. -/
def sessC7 : Session :=
  { title := cs "Radio Check", code := cs "", checklist_no := cs "  ",
    revision := cs "", date := cs "02 MARCH 2025", position := cs "",
    actions_text := cs "Turn on radio.", sop_suggestion := cs "",
    expanded := true, doc_bytes := none, doc_filename := cs "" }

theorem spec_c7_witness :
    generate_doc sessC7 (Except.error (cs "e"))
        = (sessC7, GenOutcome.errMissing [cs "checklist_no"]) ∧
      missingFields sessC7 = [cs "checklist_no"] := by
  have h := spec_c7 sessC7 (Except.error (cs "e"))
  have h2 := h.2 (by decide) (by decide) (by decide) (by decide)
  have h1 := h.1 (by rw [h2]; decide)
  rw [h2] at h1
  exact ⟨h1, h2⟩

/-- The C1 session: all validation passes and `doc_bytes` still holds
the bytes of an earlier successful render. -/
def sessC1 : Session :=
  { title := cs "Radio Check", code := cs "", checklist_no := cs "100.001",
    revision := cs "", date := cs "02 MARCH 2025", position := cs "",
    actions_text := cs "Turn on radio.", sop_suggestion := cs "",
    expanded := true, doc_bytes := some (cs "OLDBYTES"),
    doc_filename := cs "old.docx" }

/-- Claim C1, counterexample: a run of `generate_doc` whose render step
raises reports the render error, yet the download check that follows
the button press still finds the earlier render's bytes in the session
and offers exactly those bytes. -/
theorem spec_c1_counterexample :
    (generate_doc sessC1 (Except.error (cs "boom"))).2
        = GenOutcome.errRender (cs "boom") ∧
      offeredBytes (generate_doc sessC1 (Except.error (cs "boom"))).1
        = some (cs "OLDBYTES") :=
  ⟨by decide, by decide⟩

/-- Claim C1 amended: when the render step of `generate_doc` raises, a
user-visible error is reported and the session — in particular its
stored document bytes — is unchanged, so the failed attempt produces no
new document; but whatever bytes an earlier successful render left in
the session are still the ones the download trigger offers. -/
theorem spec_c1_amended (st : Session) (e : List Char) :
    (generate_doc st (Except.error e)).1 = st ∧
      (generate_doc st (Except.error e)).2 ≠ GenOutcome.ok ∧
      messageOf (generate_doc st (Except.error e)).2 ≠ none ∧
      offeredBytes (generate_doc st (Except.error e)).1 = offeredBytes st := by
  unfold generate_doc
  split
  · exact ⟨rfl, by simp, by simp [messageOf], rfl⟩
  · split
    · exact ⟨rfl, by simp, by simp [messageOf], rfl⟩
    · exact ⟨rfl, by simp, by simp [messageOf], rfl⟩

/-- Claim C8: the suggestion post-processing removes every
`<think>`-to-`</think>` block, spanning newlines and matching
non-greedily, and trims surrounding whitespace; the spec's example and
further instances evaluate as stated. -/
theorem spec_c8 :
    sopPostprocess (cs "Step 1: do X<think>internal reasoning</think>Step 2: do Y")
        = cs "Step 1: do XStep 2: do Y" ∧
      sopPostprocess (cs "  a<think>x\ny</think>b<think>z</think>c \n") = cs "abc" ∧
      sopPostprocess (cs " keep <think>drop</think> edges ") = cs "keep  edges" ∧
      sopPostprocess (cs "plain") = cs "plain" :=
  ⟨by decide, by decide, by decide, by decide⟩

/-- Claim C9: for a session holding a stored suggestion, the accept
handler overwrites `actions_text` with exactly the stored suggestion,
collapses the expander, and changes nothing else. -/
theorem spec_c9 (st : Session) (_h : st.sop_suggestion ≠ []) :
    (acceptSuggestion st).actions_text = st.sop_suggestion ∧
      (acceptSuggestion st).expanded = false ∧
      (acceptSuggestion st).title = st.title ∧
      (acceptSuggestion st).code = st.code ∧
      (acceptSuggestion st).checklist_no = st.checklist_no ∧
      (acceptSuggestion st).revision = st.revision ∧
      (acceptSuggestion st).date = st.date ∧
      (acceptSuggestion st).position = st.position ∧
      (acceptSuggestion st).sop_suggestion = st.sop_suggestion ∧
      (acceptSuggestion st).doc_bytes = st.doc_bytes :=
  ⟨rfl, rfl, rfl, rfl, rfl, rfl, rfl, rfl, rfl, rfl⟩

/-- Session with a stored suggestion and different prior actions. -/
def sessC9 : Session :=
  { title := cs "t", code := cs "", checklist_no := cs "", revision := cs "",
    date := cs "", position := cs "", actions_text := cs "old actions",
    sop_suggestion := cs "A. B. C.", expanded := true, doc_bytes := none,
    doc_filename := cs "" }

theorem spec_c9_witness :
    (acceptSuggestion sessC9).actions_text = cs "A. B. C." ∧
      (acceptSuggestion sessC9).expanded = false := by
  have h := spec_c9 sessC9 (by decide)
  exact ⟨h.1, h.2.1⟩

theorem lowerViaTable_cases (tbl : List (Char × Char)) (c : Char) :
    (lowerViaTable tbl c = c ∧ ∀ p ∈ tbl, c ≠ p.1) ∨ (∃ p ∈ tbl, c = p.1) := by
  induction tbl with
  | nil => exact Or.inl ⟨rfl, by simp⟩
  | cons q rest ih =>
    by_cases h : c = q.1
    · exact Or.inr ⟨q, List.mem_cons_self q rest, h⟩
    · have hred : lowerViaTable (q :: rest) c = lowerViaTable rest c := by
        simp [lowerViaTable, h]
      rcases ih with ⟨h1, h2⟩ | ⟨p, hp, hc⟩
      · refine Or.inl ⟨by rw [hred, h1], ?_⟩
        intro p' hp'
        rcases List.mem_cons.mp hp' with rfl | hm
        · exact h
        · exact h2 p' hm
      · exact Or.inr ⟨p, List.mem_cons_of_mem _ hp, hc⟩

theorem al_digit (c : Char) : digitB (asciiLower c) = digitB c := by
  rcases lowerViaTable_cases ulTable c with ⟨h1, _⟩ | ⟨p, hp, hc⟩
  · rw [show asciiLower c = c from h1]
  · subst hc
    fin_cases hp <;> decide

theorem al_space (c : Char) : spaceB (asciiLower c) = spaceB c := by
  rcases lowerViaTable_cases ulTable c with ⟨h1, _⟩ | ⟨p, hp, hc⟩
  · rw [show asciiLower c = c from h1]
  · subst hc
    fin_cases hp <;> decide

theorem al_fix_digit (c : Char) (h : digitB c = true) : asciiLower c = c := by
  rcases lowerViaTable_cases ulTable c with ⟨h1, _⟩ | ⟨p, hp, hc⟩
  · rw [asciiLower]
    exact h1
  · subst hc
    fin_cases hp <;> exact absurd h (by decide)

theorem al_idem (c : Char) : asciiLower (asciiLower c) = asciiLower c := by
  rcases lowerViaTable_cases ulTable c with ⟨h1, _⟩ | ⟨p, hp, hc⟩
  · rw [show asciiLower c = c from h1]
    exact show asciiLower c = c from h1
  · subst hc
    fin_cases hp <;> decide

theorem map_al_fix (ds : List Char) (h : ∀ c ∈ ds, digitB c = true) :
    ds.map asciiLower = ds := by
  induction ds with
  | nil => rfl
  | cons c rest ih =>
    rw [List.map_cons, al_fix_digit c (h c (by simp)),
      ih (fun x hx => h x (List.mem_cons_of_mem _ hx))]

theorem parseDay_map (t : List Char) :
    parseDay (t.map asciiLower)
      = (parseDay t).map (fun p => (p.1, p.2.map asciiLower)) := by
  simp only [parseDay]
  rw [List.takeWhile_map, List.dropWhile_map,
    show (digitB ∘ asciiLower) = digitB from funext al_digit, List.length_map,
    map_al_fix (t.takeWhile digitB) (fun c hc => List.mem_takeWhile_imp hc)]
  split
  · split
    · rfl
    · rfl
  · rfl

theorem parseWs_map (t : List Char) :
    parseWs (t.map asciiLower) = (parseWs t).map (fun r => r.map asciiLower) := by
  simp only [parseWs]
  rw [List.takeWhile_map, List.dropWhile_map,
    show (spaceB ∘ asciiLower) = spaceB from funext al_space]
  have hie : ((t.takeWhile spaceB).map asciiLower).isEmpty
      = (t.takeWhile spaceB).isEmpty := by
    cases t.takeWhile spaceB <;> rfl
  rw [hie]
  split
  · rfl
  · rfl

theorem matchMonthAux_map (ns : List (List Char)) (i : Nat) (t : List Char) :
    matchMonthAux ns i (t.map asciiLower)
      = (matchMonthAux ns i t).map (fun p => (p.1, p.2.map asciiLower)) := by
  induction ns generalizing i with
  | nil => rfl
  | cons n rest ih =>
    simp only [matchMonthAux]
    rw [List.map_map, show (asciiLower ∘ asciiLower) = asciiLower from funext al_idem]
    split
    · rw [← List.map_drop]
      rfl
    · exact ih (i + 1)

theorem parseYear_map (t : List Char) :
    parseYear (t.map asciiLower) = parseYear t := by
  simp only [parseYear]
  rw [List.length_map, List.all_map,
    show (digitB ∘ asciiLower) = digitB from funext al_digit]
  split
  · rename_i h
    rw [map_al_fix t (fun c hc => List.all_eq_true.mp h.2 c hc)]
  · rfl

theorem validDate_map (t : List Char) : validDate (t.map asciiLower) = validDate t := by
  simp only [validDate]
  rw [parseDay_map]
  cases parseDay t with
  | none => rfl
  | some p =>
    obtain ⟨d, r1⟩ := p
    simp only [Option.map_some']
    rw [parseWs_map]
    cases parseWs r1 with
    | none => rfl
    | some r2 =>
      simp only [Option.map_some']
      show (match matchMonth (r2.map asciiLower) with
        | none => false
        | some (m, r3) => match parseWs r3 with
          | none => false
          | some r4 => match parseYear r4 with
            | none => false
            | some y => decide (1 ≤ y) && decide (d ≤ daysInMonth y m)) = _
      rw [show matchMonth (r2.map asciiLower)
          = (matchMonth r2).map (fun p => (p.1, p.2.map asciiLower)) from
        matchMonthAux_map monthNames 1 r2]
      cases matchMonth r2 with
      | none => rfl
      | some q =>
        obtain ⟨m, r3⟩ := q
        simp only [Option.map_some']
        rw [parseWs_map]
        cases parseWs r3 with
        | none => rfl
        | some r4 =>
          simp only [Option.map_some']
          rw [parseYear_map]

/-- Claim C10: the date check of `generate_doc` is blind to ASCII
letter case — lowercasing the input never changes the verdict, so every
letter-casing of a full English month name is accepted exactly when the
canonical one is; in particular the spec-seeded uppercase date, the
capitalised and the all-lowercase variants all pass. -/
theorem spec_c10 :
    (∀ t : List Char, validDate (t.map asciiLower) = validDate t) ∧
      validDate (cs "02 march 2025") = true ∧
      validDate (cs "02 March 2025") = true ∧
      validDate (cs "02 MARCH 2025") = true :=
  ⟨validDate_map, by decide, by decide, by decide⟩
